import Mathlib

/-!
Shallow embedding of `src/src/lib.rs` (crate `binary_parser`).

The Rust `BinaryParser` wraps a `Cursor<Vec<u8>>` (a growable byte vector
plus a cursor position), a `Vec<u64>` of bases, a `VecDeque` of scheduled
writes and a `big_endian` flag.  We model bytes as `Nat` (each value kept
below 256 by the encoders), the byte vector as `List Nat`, and the cursor
position as `Nat` (u64 overflow at 2^64 is outside the modelled range; no
operation here approaches it).  `Vec` push/pop act on the list end, exactly
as in Rust; the `VecDeque` is a list whose head is the queue front.

A `ScheduledWrite` in Rust stores a closure `FnOnce(&mut BinaryParser) ->
Result<()>`.  Storing functions over the parser inside the parser is a
negative occurrence, so callbacks are deep-embedded as the action language
`WAct` (write raw bytes / nested `write_pointer` / fail), interpreted by
`runActs`; this covers exactly the callback shapes the claims exercise.

Fallible Rust methods on `&mut self` return a `Result` while the mutated
state survives even on error; they are modelled as
`BinaryParser → Except BinaryParserError α × BinaryParser`.
`finish_writes` consumes `self` and returns `Result<Self>`, modelled as
`BinaryParser → Except BinaryParserError BinaryParser`.
-/

namespace BinParse

inductive BinaryParserError where
  | ioError
  | utf8Error
  deriving DecidableEq, Repr

inductive WAct where
  | wbytes (data : List Nat)
  | wptr (body : List WAct)
  | wfail
  deriving Repr

structure BinaryParser where
  buf : List Nat
  pos : Nat
  bases : List Nat
  scheduledWrites : List (Nat × List WAct)
  bigEndian : Bool
  deriving Repr

/-- `BinaryParser::new()` / `Default::default()`: empty buffer, position 0,
no bases, no scheduled writes, little-endian. -/
def new : BinaryParser :=
  { buf := [], pos := 0, bases := [], scheduledWrites := [], bigEndian := false }

/-- `BinaryParser::from_buf(buf)`: fresh parser over the given bytes. -/
def fromBuf (buf : List Nat) : BinaryParser :=
  { buf := buf, pos := 0, bases := [], scheduledWrites := [], bigEndian := false }

/-- `Cursor<Vec<u8>>` write semantics: writing `data` at position `pos`
zero-fills any gap between the end of the vector and `pos`, overwrites
existing bytes and extends the vector as needed. -/
def storeBytes (v : List Nat) (pos : Nat) (data : List Nat) : List Nat :=
  (v.take pos ++ List.replicate (pos - v.length) 0) ++ data ++ v.drop (pos + data.length)

/-- `self.inner.write_all(data)` on the cursor: store at the current
position and advance it.  Infallible for an in-memory vector. -/
def writeAll (data : List Nat) (p : BinaryParser) : BinaryParser :=
  { p with buf := storeBytes p.buf p.pos data, pos := p.pos + data.length }

/-- `self.inner.read_exact(&mut buf)` for `buf.len() = n`: succeeds iff `n`
bytes remain at the cursor, consuming them; on failure the position is
unchanged (the cursor checks the remaining length first). -/
def readExact (n : Nat) (p : BinaryParser) :
    Except BinaryParserError (List Nat) × BinaryParser :=
  if n ≤ p.buf.length - p.pos then
    (.ok ((p.buf.drop p.pos).take n), { p with pos := p.pos + n })
  else
    (.error .ioError, p)

/-- `u32::to_le_bytes`. -/
def encodeU32le (v : Nat) : List Nat :=
  [v % 256, v / 256 % 256, v / 256 ^ 2 % 256, v / 256 ^ 3 % 256]

/-- `u32::to_be_bytes`. -/
def encodeU32be (v : Nat) : List Nat :=
  [v / 256 ^ 3 % 256, v / 256 ^ 2 % 256, v / 256 % 256, v % 256]

/-- `u32::from_le_bytes` / `u32::from_be_bytes`, selected by the flag. -/
def decodeU32 (be : Bool) (bs : List Nat) : Nat :=
  let b0 := bs.getD 0 0
  let b1 := bs.getD 1 0
  let b2 := bs.getD 2 0
  let b3 := bs.getD 3 0
  if be then ((b0 * 256 + b1) * 256 + b2) * 256 + b3
  else b0 + b1 * 256 + b2 * 256 ^ 2 + b3 * 256 ^ 3

/-- `write_u32` from the `int_impl!` macro: encode per the endianness flag
and `write_all`.  The `% 256` in the encoders is the `u8` range of each
emitted byte. -/
def writeU32 (v : Nat) (p : BinaryParser) : BinaryParser :=
  writeAll (if p.bigEndian then encodeU32be v else encodeU32le v) p

/-- `write_u8` from the `int_impl!` macro (one byte, endianness-independent;
`% 256` is the `u8` argument type). -/
def writeU8 (v : Nat) (p : BinaryParser) : BinaryParser :=
  writeAll [v % 256] p

/-- `read_u32` from the `int_impl!` macro: `read_exact` 4 bytes, decode per
the endianness flag. -/
def readU32 (p : BinaryParser) : Except BinaryParserError Nat × BinaryParser :=
  match readExact 4 p with
  | (.ok bs, p') => (.ok (decodeU32 p'.bigEndian bs), p')
  | (.error e, p') => (.error e, p')

/-- `seek(SeekFrom::Start(pos))` on an in-memory cursor: set the position. -/
def seekStart (pos : Nat) (p : BinaryParser) : BinaryParser :=
  { p with pos := pos }

/-- `push_base`: `self.bases.push(self.position())` (Vec push = list end). -/
def pushBase (p : BinaryParser) : BinaryParser :=
  { p with bases := p.bases ++ [p.pos] }

/-- `pop_base`: `self.bases.pop()` (no-op on an empty stack). -/
def popBase (p : BinaryParser) : BinaryParser :=
  { p with bases := p.bases.dropLast }

/-- `pending_writes`: `!self.scheduled_writes.is_empty()`. -/
def pendingWrites (p : BinaryParser) : Bool :=
  !p.scheduledWrites.isEmpty

/-- `to_buf_const`: `None` while writes are still pending, otherwise the
current buffer content. -/
def toBufConst (p : BinaryParser) : Option (List Nat) :=
  if pendingWrites p then none else some p.buf

/-- `read_buf(length)`: `read_exact` into a fresh vector. -/
def readBuf (length : Nat) (p : BinaryParser) :
    Except BinaryParserError (List Nat) × BinaryParser :=
  readExact length p

/-- `read_parser(length)`: `read_buf` then `Self::from_buf`. -/
def readParser (length : Nat) (p : BinaryParser) :
    Except BinaryParserError BinaryParser × BinaryParser :=
  match readBuf length p with
  | (.ok b, p') => (.ok (fromBuf b), p')
  | (.error e, p') => (.error e, p')

/-- `read_pointer(func)`: remember `position + 4`, read a 4-byte unsigned
offset, add the last base (or 0), seek there, run the callback, then
unconditionally seek back to the remembered position.  The callback is a
state transformer whose state survives its own failure, as for a Rust
`&mut self` closure. -/
def readPointer {α : Type}
    (func : BinaryParser → Except BinaryParserError α × BinaryParser)
    (p : BinaryParser) : Except BinaryParserError α × BinaryParser :=
  let pos := p.pos + 4
  match readU32 p with
  | (.error e, p') => (.error e, p')
  | (.ok offset, p') =>
    let offset := offset + (p'.bases.getLast?.getD 0)
    let p'' := seekStart offset p'
    let res := func p''
    (res.1, seekStart pos res.2)

/-- `write_pointer(func)`: push `(current position, callback)` onto the back
of the scheduled-write queue and advance the cursor 4 bytes
(`SeekFrom::Current(4)`, which cannot fail here). -/
def writePointer (body : List WAct) (p : BinaryParser) : BinaryParser :=
  { p with scheduledWrites := p.scheduledWrites ++ [(p.pos, body)],
           pos := p.pos + 4 }

/-- One step of a scheduled-write callback (`WAct` is the deep embedding of
the `FnOnce` closures; see the header comment). -/
def runAct (p : BinaryParser) : WAct → Except BinaryParserError BinaryParser
  | .wbytes data => .ok (writeAll data p)
  | .wptr body => .ok (writePointer body p)
  | .wfail => .error .ioError

/-- Run a whole callback, propagating the first error like `?`. -/
def runActs : List WAct → BinaryParser → Except BinaryParserError BinaryParser
  | [], p => .ok p
  | a :: rest, p =>
    match runAct p a with
    | .ok q => runActs rest q
    | .error e => .error e

/-- The body of the `for` loop in `finish_writes`, for one `ScheduledWrite`:
record the current position, run the callback, then seek to the recorded
pointer slot, write the recorded position as a `u32` (`pos as u32` is the
`% 2 ^ 32` truncation) and seek back. -/
def runTask (slot : Nat) (body : List WAct) (p : BinaryParser) :
    Except BinaryParserError BinaryParser :=
  let pos := p.pos
  match runActs body p with
  | .error e => .error e
  | .ok p1 =>
    let newPos := p1.pos
    .ok (seekStart newPos (writeU32 (pos % 2 ^ 32) (seekStart slot p1)))

/-- The `for write in self.scheduled_writes` loop: iterate the tasks of the
queue that was moved out of `self`. -/
def finishLoop : List (Nat × List WAct) → BinaryParser →
    Except BinaryParserError BinaryParser
  | [], p => .ok p
  | (slot, body) :: rest, p =>
    match runTask slot body p with
    | .ok q => finishLoop rest q
    | .error e => .error e

/-- `finish_writes(self)`: build `new` with an empty queue and the other
fields moved over, then run the loop over the old queue.  Note the loop
iterates only the moved-out queue: callbacks that call `write_pointer`
push onto `new.scheduled_writes`, which the loop never visits. -/
def finishWrites (p : BinaryParser) : Except BinaryParserError BinaryParser :=
  finishLoop p.scheduledWrites { p with scheduledWrites := [] }

/-- `read_until(0x00, &mut buf)` on a `Cursor`: consume bytes up to and
including the first 0 byte; if no 0 remains, consume everything to the end
of the buffer (no error).  `takeWhile (· != 0)` is the run before the
first 0, and when one exists the next byte is that 0. -/
def readUntilZero (p : BinaryParser) : List Nat × BinaryParser :=
  let rest := p.buf.drop p.pos
  let run := rest.takeWhile (fun b => b != 0)
  if run.length < rest.length then
    (run ++ [0], { p with pos := p.pos + run.length + 1 })
  else
    (run, { p with pos := p.pos + run.length })

/-- Continuation byte 0x80–0xBF. -/
def utf8Cont (b : Nat) : Bool := 0x80 ≤ b && b ≤ 0xBF

/-- `std::str::from_utf8` validity (RFC 3629: no overlongs, no surrogates,
no code points above U+10FFFF); a Rust `String` is modelled as its byte
list, so decoding succeeds iff this validator accepts. -/
def utf8Valid : List Nat → Bool
  | [] => true
  | b :: rest =>
    if b ≤ 0x7F then utf8Valid rest
    else if 0xC2 ≤ b && b ≤ 0xDF then
      match rest with
      | c1 :: r => utf8Cont c1 && utf8Valid r
      | [] => false
    else if b == 0xE0 then
      match rest with
      | c1 :: c2 :: r => (0xA0 ≤ c1 && c1 ≤ 0xBF) && utf8Cont c2 && utf8Valid r
      | _ => false
    else if (0xE1 ≤ b && b ≤ 0xEC) || b == 0xEE || b == 0xEF then
      match rest with
      | c1 :: c2 :: r => utf8Cont c1 && utf8Cont c2 && utf8Valid r
      | _ => false
    else if b == 0xED then
      match rest with
      | c1 :: c2 :: r => (0x80 ≤ c1 && c1 ≤ 0x9F) && utf8Cont c2 && utf8Valid r
      | _ => false
    else if b == 0xF0 then
      match rest with
      | c1 :: c2 :: c3 :: r =>
        (0x90 ≤ c1 && c1 ≤ 0xBF) && utf8Cont c2 && utf8Cont c3 && utf8Valid r
      | _ => false
    else if 0xF1 ≤ b && b ≤ 0xF3 then
      match rest with
      | c1 :: c2 :: c3 :: r =>
        utf8Cont c1 && utf8Cont c2 && utf8Cont c3 && utf8Valid r
      | _ => false
    else if b == 0xF4 then
      match rest with
      | c1 :: c2 :: c3 :: r =>
        (0x80 ≤ c1 && c1 ≤ 0x8F) && utf8Cont c2 && utf8Cont c3 && utf8Valid r
      | _ => false
    else false

/-- `read_null_string`: `read_until(0x00)`, `buf.pop()` (drop the last
consumed byte, whether or not it was the terminator), then UTF-8 decode. -/
def readNullString (p : BinaryParser) :
    Except BinaryParserError (List Nat) × BinaryParser :=
  let (bytes, p') := readUntilZero p
  let s := bytes.dropLast
  if utf8Valid s then (.ok s, p') else (.error .utf8Error, p')

/-- `write_null_string(data)`: `write_all` the bytes then `write_u8(0)`. -/
def writeNullString (data : List Nat) (p : BinaryParser) : BinaryParser :=
  writeU8 0 (writeAll data p)

/-- `align_write(alignment)`: `while position & (alignment - 1) != 0`,
`write_u8(0)`. -/
def alignWrite (alignment : Nat) (p : BinaryParser) : BinaryParser :=
  if p.pos &&& (alignment - 1) = 0 then p
  else alignWrite alignment (writeU8 0 p)
termination_by
  (2 ^ (alignment - 1).size - p.pos % 2 ^ (alignment - 1).size) %
    2 ^ (alignment - 1).size
decreasing_by
  simp only [writeU8, writeAll, List.length_cons, List.length_nil]
  have hk : (0 : Nat) < 2 ^ (alignment - 1).size := Nat.pos_pow_of_pos _ (by omega)
  set k := (alignment - 1).size with hkdef
  have hne : p.pos % 2 ^ k ≠ 0 := by
    intro hz
    obtain ⟨i, hi⟩ := Nat.ne_zero_implies_bit_true (x := p.pos &&& (alignment - 1))
      (by simpa using ‹¬p.pos &&& (alignment - 1) = 0›)
    rw [Nat.testBit_and, Bool.and_eq_true] at hi
    have hlt : i < k := by
      rw [hkdef]
      exact Nat.lt_size.mpr (Nat.testBit_implies_ge hi.2)
    have : (p.pos % 2 ^ k).testBit i = true := by
      rw [Nat.testBit_mod_two_pow]
      simp [hlt, hi.1]
    rw [hz] at this
    simp [Nat.zero_testBit] at this
  have hr : p.pos % 2 ^ k < 2 ^ k := Nat.mod_lt p.pos hk
  have hmu : (2 ^ k - p.pos % 2 ^ k) % 2 ^ k = 2 ^ k - p.pos % 2 ^ k :=
    Nat.mod_eq_of_lt (by omega)
  have hsucc : (p.pos + 1) % 2 ^ k = (p.pos % 2 ^ k + 1) % 2 ^ k :=
    (Nat.mod_add_mod p.pos (2 ^ k) 1).symm
  rcases Nat.lt_or_ge (p.pos % 2 ^ k + 1) (2 ^ k) with hcase | hcase
  · rw [hmu, hsucc, Nat.mod_eq_of_lt hcase,
      Nat.mod_eq_of_lt (show 2 ^ k - (p.pos % 2 ^ k + 1) < 2 ^ k by omega)]
    omega
  · have h2 : p.pos % 2 ^ k + 1 = 2 ^ k := by omega
    rw [hmu, hsucc, h2, Nat.mod_self, Nat.sub_zero, Nat.mod_self]
    omega

/-! ### Concrete states used by the claim theorems and witnesses -/

/-- One top-level `write_pointer` whose callback makes a nested
`write_pointer` call (whose own callback would write the byte 1). -/
def c1Input : BinaryParser := writePointer [WAct.wptr [WAct.wbytes [1]]] new

/-- Two top-level `write_pointer` calls A then B; A's callback writes 0xAA
then schedules nested A1 (which would write 0xA1), B's writes 0xBB then
schedules nested B1 (which would write 0xB1). -/
def c2Input : BinaryParser :=
  writePointer [WAct.wbytes [0xBB], WAct.wptr [WAct.wbytes [0xB1]]]
    (writePointer [WAct.wbytes [0xAA], WAct.wptr [WAct.wbytes [0xA1]]] new)

/-- Two bytes written, then `push_base` at position 2 (so the active base
is B = 2), then one `write_pointer` whose callback writes the byte 0x55. -/
def c3Input : BinaryParser :=
  writePointer [WAct.wbytes [0x55]] (pushBase (writeAll [1, 2] new))

/-- Input state for the C3 amended-claim witness: empty buffer, cursor at
position 4 (one task whose slot is 0 and whose callback writes nothing). -/
def c3wIn : BinaryParser :=
  { buf := [], pos := 4, bases := [], scheduledWrites := [], bigEndian := false }

/-- The state `runTask 0 [] c3wIn` produces. -/
def c3wOut : BinaryParser :=
  { buf := [4, 0, 0, 0], pos := 4, bases := [], scheduledWrites := [],
    bigEndian := false }

/-- A parser with one pending scheduled write. -/
def c8Pending : BinaryParser := writePointer [] new

/-- A big-endian parent parser, cursor at 1 of a 3-byte buffer. -/
def c10In : BinaryParser :=
  { buf := [1, 2, 3], pos := 1, bases := [7], scheduledWrites := [],
    bigEndian := true }

/-- A read callback that reports the cursor position it was invoked at. -/
def c4f (q : BinaryParser) : Except BinaryParserError Nat × BinaryParser :=
  (.ok q.pos, q)

/-- Parser whose stored pointer field is 5 (little-endian), empty bases. -/
def c4In : BinaryParser :=
  { buf := [5, 0, 0, 0, 9, 9], pos := 0, bases := [], scheduledWrites := [],
    bigEndian := false }

/-- A read callback that fails (after moving the cursor). -/
def c5f (q : BinaryParser) : Except BinaryParserError Nat × BinaryParser :=
  (.error .ioError, { q with pos := 77 })

/-- Parser with a pointer field at position 2. -/
def c5In : BinaryParser :=
  { buf := [9, 9, 1, 0, 0, 0], pos := 2, bases := [], scheduledWrites := [],
    bigEndian := false }

/-- Buffer ending in two nonzero bytes after the cursor. -/
def c9In : BinaryParser :=
  { buf := [0, 97, 98], pos := 1, bases := [], scheduledWrites := [],
    bigEndian := false }

/-- A one-byte buffer with the cursor at 1, to be aligned to 4. -/
def c7In : BinaryParser :=
  { buf := [7], pos := 1, bases := [], scheduledWrites := [],
    bigEndian := false }

/-! ### Helper lemmas -/

theorem storeBytes_length (v : List Nat) (pos : Nat) (data : List Nat) :
    (storeBytes v pos data).length = max (pos + data.length) v.length := by
  simp [storeBytes, List.length_take]
  omega

theorem storeBytes_getElem? (v : List Nat) (pos : Nat) (data : List Nat) (i : Nat) :
    (storeBytes v pos data)[i]? =
      if i < pos then (if i < v.length then v[i]? else some 0)
      else if i < pos + data.length then data[i - pos]?
      else v[i]? := by
  have hpre : (v.take pos ++ List.replicate (pos - v.length) 0).length = pos := by
    simp [List.length_take]
    omega
  unfold storeBytes
  rw [List.append_assoc]
  rw [List.getElem?_append, hpre, List.getElem?_append, List.getElem?_take,
    List.getElem?_replicate, List.getElem?_append, List.getElem?_drop,
    List.length_take]
  split_ifs <;> try rfl
  all_goals try omega
  all_goals (congr 1; omega)

theorem storeBytes_drop (v : List Nat) (pos : Nat) (data : List Nat) :
    (storeBytes v pos data).drop pos = data ++ v.drop (pos + data.length) := by
  have hpre : (v.take pos ++ List.replicate (pos - v.length) 0).length = pos := by
    simp [List.length_take]
    omega
  unfold storeBytes
  rw [List.append_assoc]
  have h := List.drop_left (v.take pos ++ List.replicate (pos - v.length) 0)
    (data ++ v.drop (pos + data.length))
  rw [hpre] at h
  exact h

theorem storeBytes_append (v : List Nat) (pos : Nat) (d1 d2 : List Nat) :
    storeBytes v pos (d1 ++ d2) =
      storeBytes (storeBytes v pos d1) (pos + d1.length) d2 := by
  apply List.ext_getElem?
  intro i
  rw [storeBytes_getElem?, storeBytes_getElem?, storeBytes_getElem?,
    storeBytes_length, List.length_append, List.getElem?_append]
  split_ifs <;> try rfl
  all_goals try omega
  all_goals (congr 1; omega)

theorem takeWhileNe_append_zero (s t : List Nat) (h : ∀ b ∈ s, b ≠ 0) :
    (s ++ 0 :: t).takeWhile (fun b => b != 0) = s := by
  induction s with
  | nil => simp
  | cons a as ih =>
    have ha : a ≠ 0 := h a (by simp)
    simp only [List.cons_append, List.takeWhile_cons]
    have ha' : (a != 0) = true := by simpa using ha
    rw [ha']
    simp only [if_true]
    rw [ih (fun b hb => h b (by simp [hb]))]

theorem takeWhileNe_eq_self (s : List Nat) (h : ∀ b ∈ s, b ≠ 0) :
    s.takeWhile (fun b => b != 0) = s := by
  induction s with
  | nil => simp
  | cons a as ih =>
    have ha : a ≠ 0 := h a (by simp)
    have ha' : (a != 0) = true := by simpa using ha
    simp only [List.takeWhile_cons, ha', if_true]
    rw [ih (fun b hb => h b (by simp [hb]))]

theorem decodeU32_encode (be : Bool) (v : Nat) :
    decodeU32 be (if be then encodeU32be v else encodeU32le v) = v % 2 ^ 32 := by
  cases be <;> simp [decodeU32, encodeU32le, encodeU32be] <;> omega

/-! ### Claims -/

/-- Claim C1 evaluated on the code: the claim says `finish_writes` drains
the queue to empty, executing also tasks that callbacks enqueue while the
queue is being drained, so that on success the returned parser has no
pending scheduled writes.  The source iterates only the queue moved out of
`self` (`for write in self.scheduled_writes`), while a nested
`write_pointer` made by a callback pushes onto the returned parser's fresh
queue, which the loop never visits: on `c1Input`, `finish_writes` succeeds
yet the returned parser still reports a pending scheduled write. -/
theorem c1_nested_task_left_pending :
    (finishWrites c1Input).map pendingWrites = Except.ok true := by rfl

/-- Claim C2 evaluated on the code: the claim says `finish_writes` emits
content in the order A, B, A1, B1.  On `c2Input` the returned buffer
contains A's byte 0xAA (at 8) and B's byte 0xBB (at 13) in order, but the
nested targets 0xA1 and 0xB1 are never emitted at all: their tasks are
left pending, in FIFO order, on the returned parser's queue, and their
4-byte pointer slots (at 9 inside A's content and 14 inside B's) stay
unpatched zero-fill. -/
theorem c2_nested_content_never_emitted :
    finishWrites c2Input = Except.ok
      { buf := [8, 0, 0, 0, 13, 0, 0, 0, 0xAA, 0, 0, 0, 0, 0xBB],
        pos := 18,
        bases := [],
        scheduledWrites := [(9, [WAct.wbytes [0xA1]]), (14, [WAct.wbytes [0xB1]])],
        bigEndian := false } := by rfl

/-- Claim C3 counterexample: on `c3Input` a base B = 2 was pushed and is
still the active (top) base when `finish_writes` resolves the deferred
write; the target byte 0x55 is emitted at absolute position T = 6, yet the
4-byte field at the pointer slot decodes to 6 = T, not T − B = 4 as the
claim requires: `finish_writes` never consults the base stack. -/
theorem c3_counterexample :
    (finishWrites c3Input).map
        (fun p => decodeU32 p.bigEndian ((p.buf.drop 2).take 4)) = Except.ok 6
    ∧ (6 : Nat) ≠ 6 - 2 := by
  exact ⟨by rfl, by decide⟩

theorem encodeU32le_length (v : Nat) : (encodeU32le v).length = 4 := rfl

theorem encodeU32be_length (v : Nat) : (encodeU32be v).length = 4 := rfl

/-- Claim C3 as amended: for any scheduled write resolved by the
`finish_writes` loop body (`runTask`), the 4-byte field at the pointer
slot is patched to exactly the absolute position T at which the task's
content was emitted (truncated to 32 bits), regardless of the base stack;
this equals T − B only when the effective base B is 0, which is also the
value the spec assigns after the base is popped. -/
theorem c3_amended_absolute_patch (slot : Nat) (body : List WAct)
    (p p' : BinaryParser) (h : runTask slot body p = Except.ok p') :
    decodeU32 p'.bigEndian ((p'.buf.drop slot).take 4) = p.pos % 2 ^ 32 := by
  unfold runTask at h
  cases hr : runActs body p with
  | error e => rw [hr] at h; cases h
  | ok p1 =>
    rw [hr] at h
    simp only [Except.ok.injEq] at h
    subst h
    simp only [seekStart, writeU32, writeAll]
    rw [storeBytes_drop]
    have key : ∀ (be : Bool) (v : Nat) (rest : List Nat),
        decodeU32 be
          (((if be = true then encodeU32be v else encodeU32le v) ++ rest).take 4)
          = v % 2 ^ 32 := by
      intro be v rest
      cases be <;> simp [encodeU32be, encodeU32le, decodeU32] <;> omega
    rw [key p1.bigEndian (p.pos % 2 ^ 32) _, Nat.mod_mod]

/-- Witness for the amended C3 at a concrete input. -/
theorem c3_amended_witness :
    decodeU32 c3wOut.bigEndian ((c3wOut.buf.drop 0).take 4) = c3wIn.pos % 2 ^ 32 :=
  c3_amended_absolute_patch 0 [] c3wIn c3wOut (by rfl)

/-- Claim C8: while at least one scheduled write is pending,
`to_buf_const` returns `none`; with no pending scheduled writes it returns
the buffer's current content. -/
theorem c8_to_buf_const (p : BinaryParser) :
    (pendingWrites p = true → toBufConst p = none)
    ∧ (pendingWrites p = false → toBufConst p = some p.buf) := by
  constructor <;> intro h <;> simp [toBufConst, h]

/-- Witness for C8: both branches at concrete parsers. -/
theorem c8_witness :
    toBufConst c8Pending = none ∧ toBufConst new = some new.buf :=
  ⟨(c8_to_buf_const c8Pending).1 (by rfl), (c8_to_buf_const new).2 (by rfl)⟩

/-- Claim C10: with L bytes readable at the cursor, `read_parser(L)`
returns a fresh sub-parser over those L bytes with cursor 0, empty base
stack, empty scheduled-write queue and big-endian flag `false` (whatever
the parent's flag), and advances the parent's cursor by exactly L. -/
theorem c10_sub_cursor_fresh (L : Nat) (p : BinaryParser)
    (h : L ≤ p.buf.length - p.pos) :
    readParser L p =
      (Except.ok { buf := (p.buf.drop p.pos).take L, pos := 0, bases := [],
                   scheduledWrites := [], bigEndian := false },
       { p with pos := p.pos + L }) := by
  unfold readParser readBuf readExact fromBuf
  rw [if_pos h]

/-- Witness for C10: the sub-parser of a big-endian parent is little-endian
and fresh; the parent advances by 2. -/
theorem c10_witness :
    readParser 2 c10In =
      (Except.ok { buf := [2, 3], pos := 0, bases := [], scheduledWrites := [],
                   bigEndian := false },
       { c10In with pos := 3 }) :=
  c10_sub_cursor_fresh 2 c10In (by decide)

/-- Characterization of `read_pointer` when the 4-byte offset field is
readable: the callback runs on the parser relocated to
(decoded field + last base, or + 0 with no bases), and afterwards the
cursor is put back to just after the field, whatever the callback did. -/
theorem readPointer_spec {α : Type}
    (f : BinaryParser → Except BinaryParserError α × BinaryParser)
    (p : BinaryParser) (h : 4 ≤ p.buf.length - p.pos) :
    readPointer f p =
      ((f { p with pos := decodeU32 p.bigEndian ((p.buf.drop p.pos).take 4)
                            + p.bases.getLast?.getD 0 }).1,
       { (f { p with pos := decodeU32 p.bigEndian ((p.buf.drop p.pos).take 4)
                              + p.bases.getLast?.getD 0 }).2 with
         pos := p.pos + 4 }) := by
  unfold readPointer readU32 readExact
  rw [if_pos h]
  simp [seekStart]

/-- Claim C4: `read_pointer` computes the absolute target as the decoded
4-byte unsigned stored value plus the top of the base stack (or plus 0 if
the stack is empty), seeks there, and invokes the caller-supplied callback
with the cursor at that target (and restores the cursor afterwards). -/
theorem c4_read_pointer_target {α : Type}
    (f : BinaryParser → Except BinaryParserError α × BinaryParser)
    (p : BinaryParser) (h : 4 ≤ p.buf.length - p.pos) :
    readPointer f p =
      ((f { p with pos := decodeU32 p.bigEndian ((p.buf.drop p.pos).take 4)
                            + p.bases.getLast?.getD 0 }).1,
       { (f { p with pos := decodeU32 p.bigEndian ((p.buf.drop p.pos).take 4)
                              + p.bases.getLast?.getD 0 }).2 with
         pos := p.pos + 4 }) :=
  readPointer_spec f p h

/-- Witness for C4: the callback observes cursor 5 = stored 5 + base 0, and
the cursor ends at 4. -/
theorem c4_witness :
    readPointer c4f c4In = (Except.ok 5, { c4In with pos := 4 }) :=
  c4_read_pointer_target c4f c4In (by decide)

/-- Claim C5: after `read_pointer(callback)` returns, whether the callback
succeeded or failed, the cursor sits immediately after the 4-byte offset
field, at the start position plus 4 (the offset field itself being
readable). -/
theorem c5_cursor_restored {α : Type}
    (f : BinaryParser → Except BinaryParserError α × BinaryParser)
    (p : BinaryParser) (h : 4 ≤ p.buf.length - p.pos) :
    (readPointer f p).2.pos = p.pos + 4 := by
  rw [readPointer_spec f p h]

/-- Witness for C5: even with a failing callback that moved the cursor, the
final position is 2 + 4 = 6. -/
theorem c5_witness : (readPointer c5f c5In).2.pos = c5In.pos + 4 :=
  c5_cursor_restored c5f c5In (by decide)

/-- Claim C9: when no 0x00 byte remains at or after the cursor,
`read_null_string` raises no I/O error: `read_until` consumes everything
to the end of the buffer, `buf.pop()` removes the final consumed byte as
though it were the terminator, and the remaining bytes are decoded as
UTF-8, the only possible failure being the decode error. -/
theorem c9_no_terminator (p : BinaryParser)
    (h : ∀ b ∈ p.buf.drop p.pos, b ≠ 0) :
    readNullString p =
      ((if utf8Valid (p.buf.drop p.pos).dropLast then
          Except.ok (p.buf.drop p.pos).dropLast
        else Except.error BinaryParserError.utf8Error),
       { p with pos := p.pos + (p.buf.drop p.pos).length }) := by
  unfold readNullString readUntilZero
  simp only [takeWhileNe_eq_self _ h]
  simp [Nat.lt_irrefl]
  split_ifs <;> rfl

/-- Witness for C9: consuming [97, 98] with no terminator yields the
decoded prefix [97] and a cursor at the end of the buffer. -/
theorem c9_witness :
    readNullString c9In = (Except.ok [97], { c9In with pos := 3 }) :=
  c9_no_terminator c9In (by decide)

/-- After `align_write`, the loop guard has terminated: the position has no
bit in common with `alignment - 1`. -/
theorem alignWrite_land (a : Nat) (p : BinaryParser) :
    (alignWrite a p).pos &&& (a - 1) = 0 := by
  refine alignWrite.induct a
    (fun q => (alignWrite a q).pos &&& (a - 1) = 0) ?_ ?_ p
  · intro q h
    rw [alignWrite, if_pos h]
    exact h
  · intro q h ih
    rw [alignWrite, if_neg h]
    exact ih

/-- `align_write` is idempotent on the full parser state. -/
theorem alignWrite_idem (a : Nat) (p : BinaryParser) :
    alignWrite a (alignWrite a p) = alignWrite a p := by
  conv_lhs => rw [alignWrite]
  rw [if_pos (alignWrite_land a p)]

/-- `align_write` only ever stores the byte 0, so any buffer index at or
beyond a bound `L` past which the buffer held only zeros (or nothing)
still holds only zeros (or nothing). -/
theorem alignWrite_buf_zero (a : Nat) (p : BinaryParser) (L : Nat) :
    (∀ i, L ≤ i → (p.buf[i]? = some 0 ∨ p.buf[i]? = none)) →
    ∀ i, L ≤ i →
      ((alignWrite a p).buf[i]? = some 0 ∨ (alignWrite a p).buf[i]? = none) := by
  refine alignWrite.induct a
    (fun q => (∀ i, L ≤ i → (q.buf[i]? = some 0 ∨ q.buf[i]? = none)) →
      ∀ i, L ≤ i →
        ((alignWrite a q).buf[i]? = some 0 ∨ (alignWrite a q).buf[i]? = none))
    ?_ ?_ p
  · intro q h hL
    rw [alignWrite, if_pos h]
    exact hL
  · intro q h ih hL
    rw [alignWrite, if_neg h]
    apply ih
    intro i hi
    simp only [writeU8, writeAll]
    rw [storeBytes_getElem?]
    split_ifs with h1 h2 h3
    · exact hL i hi
    · left; rfl
    · left
      have hz : i - q.pos = 0 := by
        simp only [List.length_cons, List.length_nil] at h3
        omega
      rw [hz]
      rfl
    · exact hL i hi

/-- Claim C7: for a power-of-two alignment, `align_write` twice equals
`align_write` once (same buffer and cursor), the resulting position is a
multiple of the alignment, and every byte the call appends beyond the old
buffer length is zero. -/
theorem c7_align_write (k : Nat) (p : BinaryParser) :
    alignWrite (2 ^ k) (alignWrite (2 ^ k) p) = alignWrite (2 ^ k) p
    ∧ (alignWrite (2 ^ k) p).pos % 2 ^ k = 0
    ∧ ∀ i, p.buf.length ≤ i →
        ((alignWrite (2 ^ k) p).buf[i]? = some 0
          ∨ (alignWrite (2 ^ k) p).buf[i]? = none) := by
  refine ⟨alignWrite_idem _ p, ?_, ?_⟩
  · have h := alignWrite_land (2 ^ k) p
    rwa [Nat.and_pow_two_sub_one_eq_mod] at h
  · exact alignWrite_buf_zero (2 ^ k) p p.buf.length
      (fun i hi => Or.inr (List.getElem?_eq_none hi))

/-- Witness for C7 at alignment 4 = 2 ^ 2. -/
theorem c7_witness :
    alignWrite (2 ^ 2) (alignWrite (2 ^ 2) c7In) = alignWrite (2 ^ 2) c7In
    ∧ (alignWrite (2 ^ 2) c7In).pos % 2 ^ 2 = 0
    ∧ ((alignWrite (2 ^ 2) c7In).buf[2]? = some 0
        ∨ (alignWrite (2 ^ 2) c7In).buf[2]? = none) :=
  ⟨(c7_align_write 2 c7In).1, (c7_align_write 2 c7In).2.1,
    (c7_align_write 2 c7In).2.2 2 (by decide)⟩

/-- The two stores of `write_null_string` (the bytes, then the 0
terminator) equal one store of the bytes followed by 0. -/
theorem writeNullString_buf (s : List Nat) (st : BinaryParser) :
    (writeNullString s st).buf = storeBytes st.buf st.pos (s ++ [0]) := by
  simp only [writeNullString, writeU8, writeAll]
  rw [storeBytes_append]

/-- Reading back from the write position: the buffer holds the string, the
terminator, then whatever the old buffer held beyond. -/
theorem writeNullString_drop (s : List Nat) (st : BinaryParser) :
    ((writeNullString s st).buf).drop st.pos
      = s ++ 0 :: st.buf.drop (st.pos + (s.length + 1)) := by
  rw [writeNullString_buf, storeBytes_drop]
  simp

/-- Claim C6: for a valid-UTF-8 string with no interior 0x00 byte, writing
it with `write_null_string` at offset p and reading with
`read_null_string` from the same offset p yields the string again and
leaves the cursor one byte past the terminator, at p plus the byte length
plus 1. -/
theorem c6_null_string_round_trip (s : List Nat) (st : BinaryParser)
    (hv : utf8Valid s = true) (hz : ∀ b ∈ s, b ≠ 0) :
    readNullString (seekStart st.pos (writeNullString s st)) =
      (Except.ok s,
       { writeNullString s st with pos := st.pos + s.length + 1 }) := by
  have hlen : s.length
      < (s ++ 0 :: st.buf.drop (st.pos + (s.length + 1))).length := by
    simp
  have hq : readUntilZero (seekStart st.pos (writeNullString s st)) =
      (s ++ [0], { writeNullString s st with pos := st.pos + s.length + 1 }) := by
    unfold readUntilZero
    simp only [seekStart]
    rw [writeNullString_drop,
      takeWhileNe_append_zero s (st.buf.drop (st.pos + (s.length + 1))) hz,
      if_pos hlen]
  unfold readNullString
  rw [hq]
  simp only [List.dropLast_concat, hv]
  rw [if_pos trivial]

/-- Witness for C6: round-tripping the two-byte string "ab" from a fresh
parser. -/
theorem c6_witness :
    readNullString (seekStart new.pos (writeNullString [97, 98] new)) =
      (Except.ok [97, 98],
       { writeNullString [97, 98] new with
         pos := new.pos + [97, 98].length + 1 }) :=
  c6_null_string_round_trip [97, 98] new (by decide) (by decide)

end BinParse
